import Mathlib

/-!
Verification of the statistical core of the b2b-survival-analysis application.

The two source files, `src/app/pages/survival_analysis.py` and
`src/app/pipeline_app.py`, are Streamlit pages; the numeric core embedded
here consists of

* the conditional winning-rate transformation of
  `plot_conditional_winning_rate` (survival_analysis.py, lines 151-154),
* the Monte Carlo resampling loop of `simulate_futures`
  (pipeline_app.py, lines 163-182),
* the Kaplan-Meier survival estimator with its Greenwood-style confidence
  band, which the application imports from the external `lifelines`
  library; it is modelled here from the design document (sections 4.2 and 9).

Numeric values are embedded as rationals.  numpy float division by a zero
denominator does not raise; it produces `nan` (for `0.0/0.0`) or `inf`
(for `x/0.0`) with a runtime warning.  Such non-real outcomes are embedded
as `Option.none`.  Python list indexing with a negative index wraps from
the end of the list and raises `IndexError` below `-len`; the embedding
`pyIndex` reproduces that.
-/

set_option maxRecDepth 4000

/-- Python list indexing `xs[i]` for an `Int` index: a nonnegative index
reads from the front, an index in `[-len, -1]` wraps from the end, and
anything below `-len` raises `IndexError`, embedded as `none`. -/
def pyIndex (xs : List ℚ) (i : Int) : Option ℚ :=
  if 0 ≤ i then xs.get? i.toNat
  else if 0 ≤ i + xs.length then xs.get? (i + xs.length).toNat
  else none

/-- numpy float64 division: a zero denominator yields `nan` or `inf`
(embedded `none`), never an exception. -/
def floatDiv (a b : ℚ) : Option ℚ :=
  if b = 0 then none else some (a / b)

/-- One entry of the conditional series, from line 153 of
survival_analysis.py:
`all_vals[min(idx + k_weeks, max_weeks - 1)] / all_vals[idx]`
followed by the `1 - _` map of line 154.  The outer `Option` is the
`IndexError` that Python raises for an index below `-len`; the inner
`Option` is the `nan` produced when the denominator is `0`. -/
def condEntry (all_vals : List ℚ) (k_weeks : Int) (idx : Nat) : Option (Option ℚ) :=
  Option.map
    (fun num => Option.map (fun r => 1 - r) (floatDiv num (all_vals.getD idx 0)))
    (pyIndex all_vals (min ((idx : Int) + k_weeks) ((all_vals.length : Int) - 1)))

/-- Sequencing of the Python list comprehension: the whole computation
raises (returns `none`) as soon as any entry raises. -/
def optTraverse {α : Type} : List (Option α) → Option (List α)
  | [] => some []
  | none :: _ => none
  | some a :: rest => Option.map (fun l => a :: l) (optTraverse rest)

/-- The conditional winning-rate series of `plot_conditional_winning_rate`
(survival_analysis.py, lines 151-154): for each `idx` in
`range(max_weeks)` the value
`1 - all_vals[min(idx + k_weeks, max_weeks - 1)] / all_vals[idx]`,
where `all_vals` is the survival-curve point-estimate sequence and
`max_weeks = len(all_vals)`. -/
def plot_conditional_winning_rate (all_vals : List ℚ) (k_weeks : Int) :
    Option (List (Option ℚ)) :=
  optTraverse ((List.range all_vals.length).map (condEntry all_vals k_weeks))

/-- The value of an in-range entry when the look-ahead is nonnegative:
index arithmetic stays inside the list, so only the inner division can
degenerate. -/
def condValue (all_vals : List ℚ) (k idx : Nat) : Option ℚ :=
  Option.map (fun r => 1 - r)
    (floatDiv (all_vals.getD (min (idx + k) (all_vals.length - 1)) 0)
      (all_vals.getD idx 0))

/-- Decidable form of "this series entry is a real number in [0,1]". -/
def inUnitB (e : Option ℚ) : Bool :=
  match e with
  | none => false
  | some q => decide (0 ≤ q ∧ q ≤ 1)

/-- Insertion into a sorted list, for the ascending sort that
`np.percentile` performs internally. -/
def insertQ (a : ℚ) : List ℚ → List ℚ
  | [] => [a]
  | b :: t => if a ≤ b then a :: b :: t else b :: insertQ a t

/-- Ascending insertion sort on rationals. -/
def sortQ : List ℚ → List ℚ
  | [] => []
  | a :: t => insertQ a (sortQ t)

/-- `np.percentile(s, q)` with the default linear interpolation: sort the
data ascending, take the virtual index `q * (n - 1) / 100`, and
interpolate linearly between its two neighbouring order statistics. -/
def npPercentile (s : List ℚ) (q : ℚ) : ℚ :=
  let a := sortQ s
  let v : ℚ := q * ((a.length : ℚ) - 1) / 100
  let lo : Nat := v.floor.toNat
  let base := a.getD lo 0
  base + (v - (lo : ℚ)) * (a.getD (lo + 1) base - base)

/-- `np.mean(s)`: the arithmetic mean of the sample list. -/
def sampleMean (s : List ℚ) : ℚ := s.sum / (s.length : ℚ)

/-- One simulated future, from line 174 of pipeline_app.py:
`sum(np.random.choice(cnt_dists, size=deals_we_close, replace=True))`.
The generator is embedded as the index stream `pick`; each draw takes the
stream value modulo the collection size, so draws are with replacement and
every index stream stays in range. -/
def npChoiceSum (vals : List ℚ) (deals_we_close : Nat) (pick : Nat → Nat) : ℚ :=
  ((List.range deals_we_close).map
    (fun j => vals.getD (pick j % vals.length) 0)).sum

/-- The list `s` of line 174: one summed sample per simulated future. -/
def simSamples (vals : List ℚ) (deals_we_close n_futures : Nat)
    (pick : Nat → Nat → Nat) : List ℚ :=
  (List.range n_futures).map (fun r => npChoiceSum vals deals_we_close (pick r))

/-- The per-cohort output of `simulate_futures` (pipeline_app.py,
lines 163-182): the Value Sample Set `s` of line 174 together with the
summary statistics of lines 175-177 (`np.mean(s)`, `np.percentile(s, 10)`,
`np.percentile(s, 90)`). -/
structure SimOutput where
  samples : List ℚ
  mean : ℚ
  p10 : ℚ
  p90 : ℚ
deriving DecidableEq

/-- The Monte Carlo simulator of `simulate_futures` (pipeline_app.py,
lines 163-182), for one cohort.  The function performs no input
validation.  `none` embeds the two untyped library exceptions that can
escape it: `np.random.choice` raises `ValueError` when the value
collection is empty (and at least one future is simulated), and
`np.percentile` raises `IndexError` on the empty sample list produced
when `n_futures = 0`.  In every other case a full `SimOutput` is
returned. -/
def simulate_futures (vals : List ℚ) (deals_we_close n_futures : Nat)
    (pick : Nat → Nat → Nat) : Option SimOutput :=
  if vals.isEmpty ∨ n_futures = 0 then none
  else
    some ⟨simSamples vals deals_we_close n_futures pick,
      sampleMean (simSamples vals deals_we_close n_futures pick),
      npPercentile (simSamples vals deals_we_close n_futures pick) 10,
      npPercentile (simSamples vals deals_we_close n_futures pick) 90⟩

/-- One invocation of `simulate_futures` as the application actually runs
it: the draws come from numpy's global generator, embedded as a stream of
indices consumed left to right, so a run starting at stream offset
`start` uses the stream values `start, start + 1, ...` and leaves the
generator at offset `start + n_futures * deals_we_close`.  The function
has no seed parameter; the offset is the only state. -/
def simulate_futures_run (vals : List ℚ) (deals_we_close n_futures : Nat)
    (stream : Nat → Nat) (start : Nat) : Option SimOutput × Nat :=
  (simulate_futures vals deals_we_close n_futures
      (fun r j => stream (start + r * deals_we_close + j)),
    start + n_futures * deals_we_close)

/-- Modelled from the spec: the error taxonomy of section 7.  The
application itself defines no error types; `lifelines`, which implements
the Survival Estimator, is not part of the repository sources. -/
inductive SpecError where
  | InvalidInput
  | EmptyCohort
deriving DecidableEq

/-- A Duration Record (section 3): elapsed time in whole weeks and the
event-occurred flag, as produced by `datetimes_to_durations` in
survival_analysis.py line 75. -/
abbrev DurationRecord := Nat × Bool

/-- Modelled from the spec (section 4.2): the at-risk count `n_t` at time
index `t` — observations whose duration is at least `t` (an observation
censored at `t` is still at risk at `t` and leaves afterwards). -/
def atRisk (obs : List DurationRecord) (t : Nat) : Nat :=
  (obs.filter (fun o => decide (t ≤ o.1))).length

/-- Modelled from the spec (section 4.2): the event count `d_t` at time
index `t` — observations with duration exactly `t` whose event occurred
(standard Kaplan-Meier tie handling aggregates them into one step). -/
def eventsAt (obs : List DurationRecord) (t : Nat) : Nat :=
  (obs.filter (fun o => decide (o.1 = t) && o.2)).length

/-- Modelled from the spec (section 4.2): the Kaplan-Meier step factor
`1 - d_t / n_t`.  For `t` up to the maximum observed duration the at-risk
count is positive; the rational junk value `0/0 = 0` is never reached on
a curve index. -/
def kmFactor (obs : List DurationRecord) (t : Nat) : ℚ :=
  1 - (eventsAt obs t : ℚ) / (atRisk obs t : ℚ)

/-- Modelled from the spec (section 4.2): the Kaplan-Meier survival
estimate at time index `t`, the product of the step factors at all event
times up to and including `t`; at index 0 it is `1` minus the fraction of
instantaneous events at time 0. -/
def survivalAt (obs : List DurationRecord) : Nat → ℚ
  | 0 => kmFactor obs 0
  | t + 1 => survivalAt obs t * kmFactor obs (t + 1)

/-- Modelled from the spec (section 4.2): one summand
`d_t / (n_t * (n_t - d_t))` of the Greenwood variance. -/
def greenwoodTerm (obs : List DurationRecord) (t : Nat) : ℚ :=
  (eventsAt obs t : ℚ) /
    ((atRisk obs t : ℚ) * ((atRisk obs t : ℚ) - (eventsAt obs t : ℚ)))

/-- Modelled from the spec: the running Greenwood sum up to index `t`. -/
def greenwoodSum (obs : List DurationRecord) : Nat → ℚ
  | 0 => greenwoodTerm obs 0
  | t + 1 => greenwoodSum obs t + greenwoodTerm obs (t + 1)

/-- Modelled from the spec: the Greenwood variance estimate
`S(t)^2 * sum` for the survival estimate at index `t`. -/
def greenwoodVar (obs : List DurationRecord) (t : Nat) : ℚ :=
  (survivalAt obs t) ^ 2 * greenwoodSum obs t

/-- One Newton step for the square root of `q`. -/
def newtonStep (q x : ℚ) : ℚ := (x + q / x) / 2

/-- Iterated Newton steps. -/
def newtonIter : Nat → ℚ → ℚ → ℚ
  | 0, _, x => x
  | n + 1, q, x => newtonIter n q (newtonStep q x)

/-- A computable, nonnegative rational approximation of the square root,
used as the standard-error strategy of the confidence band.  Section 9 of
the design document makes the confidence-interval formula a replaceable
strategy (its exact choice affects only the band width, not the bracket
property). -/
def ratSqrt (q : ℚ) : ℚ :=
  if q ≤ 0 then 0 else newtonIter 4 q (max 1 q)

/-- The 95% critical value `1.96`. -/
def zCrit : ℚ := 196 / 100

/-- Modelled from the spec (sections 4.2 and 9): the lower confidence
bound `S(t) - 1.96 * se(t)` with `se` the Greenwood standard error. -/
def ciLow (obs : List DurationRecord) (t : Nat) : ℚ :=
  survivalAt obs t - zCrit * ratSqrt (greenwoodVar obs t)

/-- Modelled from the spec (sections 4.2 and 9): the upper confidence
bound `S(t) + 1.96 * se(t)`. -/
def ciHigh (obs : List DurationRecord) (t : Nat) : ℚ :=
  survivalAt obs t + zCrit * ratSqrt (greenwoodVar obs t)

/-- The maximum observed duration of a cohort. -/
def maxDuration (obs : List DurationRecord) : Nat :=
  (obs.map (fun o => o.1)).foldr max 0

/-- One record of the output Survival Curve (section 6): time index,
survival point estimate and the two confidence bounds. -/
structure CurvePoint where
  time_index : Nat
  estimate : ℚ
  ci_low : ℚ
  ci_high : ℚ
deriving DecidableEq

/-- Modelled from the spec (section 4.2): the Survival Estimator for one
cohort.  It fails with `EmptyCohort` on a cohort with zero observations;
otherwise it returns the Survival Curve covering time index 0 through the
maximum observed duration.  The estimator itself lives in the external
`lifelines` package (`KaplanMeierFitter`, used at survival_analysis.py
lines 76-79); only its caller is in the repository sources. -/
def survivalEstimator (obs : List DurationRecord) :
    Except SpecError (List CurvePoint) :=
  if obs.isEmpty then Except.error SpecError.EmptyCohort
  else Except.ok ((List.range (maxDuration obs + 1)).map
    (fun t => ⟨t, survivalAt obs t, ciLow obs t, ciHigh obs t⟩))

deriving instance DecidableEq for Except

theorem get?_eq_some_getD : ∀ (S : List ℚ) (n : Nat), n < S.length →
    S.get? n = some (S.getD n 0) := by
  intro S
  induction S with
  | nil => intro n h; simp at h
  | cons a t ih =>
    intro n h
    cases n with
    | zero => rfl
    | succ m =>
      have hm : m < t.length := by simpa using h
      simpa using ih m hm

theorem getD_mem_of_lt : ∀ (S : List ℚ) (n : Nat), n < S.length → S.getD n 0 ∈ S := by
  intro S
  induction S with
  | nil => intro n h; simp at h
  | cons a t ih =>
    intro n h
    cases n with
    | zero => simp
    | succ m =>
      have hm : m < t.length := by simpa using h
      simpa using Or.inr (ih m hm)

theorem optTraverse_map_some {α β : Type} (g : α → β) :
    ∀ (l : List α), optTraverse (l.map (fun a => some (g a))) = some (l.map g) := by
  intro l
  induction l with
  | nil => rfl
  | cons a t ih => simp [optTraverse, ih]

theorem optTraverse_all_some {α : Type} :
    ∀ (l : List (Option α)), (∀ e ∈ l, ∃ a, e = some a) →
      ∃ l2, optTraverse l = some l2 ∧ l2.length = l.length := by
  intro l
  induction l with
  | nil => exact fun _ => ⟨[], rfl, rfl⟩
  | cons e rest ih =>
    intro h
    obtain ⟨a, rfl⟩ := h e (List.mem_cons_self e rest)
    obtain ⟨l2, h2, hl⟩ := ih (fun x hx => h x (List.mem_cons_of_mem _ hx))
    exact ⟨a :: l2, by simp [optTraverse, h2], by simp [hl]⟩

theorem condEntry_eq_condValue (S : List ℚ) (k idx : Nat) (h : idx < S.length) :
    condEntry S (k : Int) idx = some (condValue S k idx) := by
  have hn : 1 ≤ S.length := by omega
  have hj : min ((idx : Int) + (k : Int)) ((S.length : Int) - 1) =
      ((min (idx + k) (S.length - 1) : Nat) : Int) := by
    rw [Nat.cast_min, Nat.cast_add, Nat.cast_sub hn, Nat.cast_one]
  have hjn : min (idx + k) (S.length - 1) < S.length :=
    lt_of_le_of_lt (Nat.min_le_right _ _) (by omega)
  unfold condEntry
  rw [hj]
  unfold pyIndex
  rw [if_pos (by positivity), Int.toNat_natCast,
    get?_eq_some_getD S _ hjn]
  rfl

theorem plot_eq_map (S : List ℚ) (k : Nat) :
    plot_conditional_winning_rate S (k : Int) =
      some ((List.range S.length).map (condValue S k)) := by
  unfold plot_conditional_winning_rate
  rw [List.map_congr_left (fun i hi =>
    condEntry_eq_condValue S k i (List.mem_range.mp hi))]
  exact optTraverse_map_some (condValue S k) (List.range S.length)

theorem getD_antitone (S : List ℚ)
    (hmono : ∀ t, t + 1 < S.length → S.getD (t + 1) 0 ≤ S.getD t 0) :
    ∀ j, j < S.length → ∀ i, i ≤ j → S.getD j 0 ≤ S.getD i 0 := by
  intro j
  induction j with
  | zero =>
    intro _ i hi
    have : i = 0 := Nat.le_zero.mp hi
    subst this
    exact le_refl _
  | succ n ih =>
    intro hj i hi
    rcases Nat.lt_succ_iff_lt_or_eq.mp (Nat.lt_succ_of_le hi) with h | h
    · exact le_trans (hmono n hj) (ih (by omega) i (by omega))
    · subst h; exact le_refl _

/-- Claim C1: for a survival-curve point-estimate sequence with all values
positive and a nonnegative look-ahead `k`, the conditional transformer of
survival_analysis.py (lines 151-154) returns at each index `i` the value
`1 - S(min(i + k, last_index)) / S(i)`. -/
theorem conditional_transformer_pointwise (S : List ℚ) (k i : Nat)
    (hpos : ∀ v ∈ S, 0 < v) (hi : i < S.length) :
    ∃ l, plot_conditional_winning_rate S (k : Int) = some l ∧
      l.get? i = some (some (1 - S.getD (min (i + k) (S.length - 1)) 0 / S.getD i 0)) := by
  refine ⟨_, plot_eq_map S k, ?_⟩
  rw [List.get?_map, List.get?_range hi, Option.map_some']
  have hden : 0 < S.getD i 0 := hpos _ (getD_mem_of_lt S i hi)
  unfold condValue floatDiv
  rw [if_neg hden.ne']
  rfl

/-- Claim C1 witness: the scenario with survival estimates
`[1.0, 0.8, 0.6, 0.6]` and `k = 1`, whose conditional series is
`[0.2, 0.25, 0.0, 0.0]`; the series value at index 1 equals the invariant
formula. -/
theorem conditional_transformer_pointwise_witness :
    plot_conditional_winning_rate [1, 4/5, 3/5, 3/5] 1 =
      some [some (1/5), some (1/4), some 0, some 0] ∧
    (∃ l, plot_conditional_winning_rate ([1, 4/5, 3/5, 3/5] : List ℚ) ((1 : Nat) : Int) = some l ∧
      l.get? 1 = some (some (1 - ([(1 : ℚ), 4/5, 3/5, 3/5] : List ℚ).getD
        (min (1 + 1) (([(1 : ℚ), 4/5, 3/5, 3/5] : List ℚ).length - 1)) 0 /
        ([(1 : ℚ), 4/5, 3/5, 3/5] : List ℚ).getD 1 0))) :=
  ⟨by with_unfolding_all decide,
    conditional_transformer_pointwise [1, 4/5, 3/5, 3/5] 1 1
      (by with_unfolding_all decide) (by with_unfolding_all decide)⟩

/-- Claim C5 counterexample: on the valid input `[1.0, 0.0]` (a genuine
Kaplan-Meier point-estimate sequence: one subject whose event occurs at
week 1) with `k = 1`, the series entry at the last index is the numpy
result of `0.0 / 0.0`, i.e. `nan` (embedded `none`), which is not a value
in `[0, 1]`: division by a zero survival estimate does escape `[0, 1]`. -/
theorem conditional_series_nan_counterexample :
    plot_conditional_winning_rate [1, 0] 1 = some [some 1, none] ∧
    Option.map (fun l => l.all inUnitB) (plot_conditional_winning_rate [1, 0] 1) =
      some false := by with_unfolding_all decide

/-- Claim C5 (amended): provided every point estimate is strictly positive
and the sequence is non-increasing, every value of the conditional series
is a real number in `[0, 1]`; when an estimate reaches `0` the division
`0/0` instead yields `nan`, which lies outside `[0, 1]`. -/
theorem conditional_series_in_unit_interval (S : List ℚ) (k : Nat)
    (hpos : ∀ v ∈ S, 0 < v)
    (hmono : ∀ t, t + 1 < S.length → S.getD (t + 1) 0 ≤ S.getD t 0) :
    ∃ l, plot_conditional_winning_rate S (k : Int) = some l ∧
      ∀ e ∈ l, ∃ q, e = some q ∧ 0 ≤ q ∧ q ≤ 1 := by
  refine ⟨_, plot_eq_map S k, ?_⟩
  intro e he
  obtain ⟨i, hir, rfl⟩ := List.mem_map.mp he
  have hi : i < S.length := List.mem_range.mp hir
  have hj : min (i + k) (S.length - 1) < S.length :=
    lt_of_le_of_lt (Nat.min_le_right _ _) (by omega)
  have hij : i ≤ min (i + k) (S.length - 1) :=
    le_min (Nat.le_add_right _ _) (by omega)
  have hSi : 0 < S.getD i 0 := hpos _ (getD_mem_of_lt S i hi)
  have hSj : 0 < S.getD (min (i + k) (S.length - 1)) 0 :=
    hpos _ (getD_mem_of_lt S _ hj)
  have hle : S.getD (min (i + k) (S.length - 1)) 0 ≤ S.getD i 0 :=
    getD_antitone S hmono _ hj i hij
  refine ⟨1 - S.getD (min (i + k) (S.length - 1)) 0 / S.getD i 0, ?_, ?_, ?_⟩
  · unfold condValue floatDiv
    rw [if_neg hSi.ne']
    rfl
  · have h1 : S.getD (min (i + k) (S.length - 1)) 0 / S.getD i 0 ≤ 1 :=
      (div_le_one hSi).mpr hle
    linarith
  · have h0 : 0 ≤ S.getD (min (i + k) (S.length - 1)) 0 / S.getD i 0 :=
      div_nonneg hSj.le hSi.le
    linarith

/-- Claim C5 witness: the amended statement applied to the non-increasing,
strictly positive curve `[1, 1/2, 1/2]` with `k = 2`. -/
theorem conditional_series_in_unit_interval_witness :
    (∀ v ∈ ([1, 1/2, 1/2] : List ℚ), 0 < v) ∧
    (∃ l, plot_conditional_winning_rate ([1, 1/2, 1/2] : List ℚ) ((2 : Nat) : Int) = some l ∧
      ∀ e ∈ l, ∃ q, e = some q ∧ 0 ≤ q ∧ q ≤ 1) :=
  ⟨by with_unfolding_all decide,
    conditional_series_in_unit_interval [1, 1/2, 1/2] 2
      (by with_unfolding_all decide)
      (by
        intro t ht
        have h2 : t = 0 ∨ t = 1 := by simp at ht; omega
        rcases h2 with rfl | rfl <;> with_unfolding_all decide)⟩

/-- Claim C6 counterexample: with `k = 0` and the genuine survival curve
`[1.0, 0.0]`, the entry at index 1 is `0.0 / 0.0 = nan` (embedded `none`),
not `0`: the conditional series is not identically zero. -/
theorem conditional_k0_counterexample :
    plot_conditional_winning_rate [1, 0] 0 = some [some 0, none] ∧
    Option.map (fun l => l.all (fun e => decide (e = some (0 : ℚ))))
      (plot_conditional_winning_rate [1, 0] 0) = some false := by
  with_unfolding_all decide

/-- Claim C6 (amended): when every point estimate is strictly positive,
the conditional series for look-ahead `k = 0` is `0` at every index. -/
theorem conditional_k0_zero (S : List ℚ) (hpos : ∀ v ∈ S, 0 < v) :
    plot_conditional_winning_rate S 0 = some (List.replicate S.length (some 0)) := by
  have h := plot_eq_map S 0
  rw [Nat.cast_zero] at h
  rw [h]
  refine congrArg some (List.eq_replicate.mpr ⟨by simp, ?_⟩)
  intro b hb
  obtain ⟨i, hir, rfl⟩ := List.mem_map.mp hb
  have hi : i < S.length := List.mem_range.mp hir
  have hmin : min (i + 0) (S.length - 1) = i := Nat.min_eq_left (by omega)
  have hSi : 0 < S.getD i 0 := hpos _ (getD_mem_of_lt S i hi)
  unfold condValue floatDiv
  rw [hmin, if_neg hSi.ne', Option.map_some', div_self hSi.ne']
  norm_num

/-- Claim C6 witness: the amended statement applied to the strictly
positive curve `[1, 3/4]`. -/
theorem conditional_k0_zero_witness :
    (∀ v ∈ ([1, 3/4] : List ℚ), 0 < v) ∧
    plot_conditional_winning_rate ([1, 3/4] : List ℚ) 0 =
      some (List.replicate ([1, 3/4] : List ℚ).length (some 0)) :=
  ⟨by with_unfolding_all decide,
    conditional_k0_zero [1, 3/4] (by with_unfolding_all decide)⟩

/-- Claim C10: for a strictly positive point-estimate sequence and any
nonnegative look-ahead `k`, the conditional series value at the last time
index is exactly `0`, because the clamped target `min(last + k, last)` is
the last index itself and `S(last)/S(last) = 1`. -/
theorem conditional_last_index_zero (S : List ℚ) (k : Nat)
    (hne : S ≠ []) (hpos : ∀ v ∈ S, 0 < v) :
    ∃ l, plot_conditional_winning_rate S (k : Int) = some l ∧
      l.get? (S.length - 1) = some (some 0) := by
  have hlen : 0 < S.length := List.length_pos.mpr hne
  refine ⟨_, plot_eq_map S k, ?_⟩
  rw [List.get?_map, List.get?_range (by omega), Option.map_some']
  have hmin : min (S.length - 1 + k) (S.length - 1) = S.length - 1 :=
    Nat.min_eq_right (Nat.le_add_right _ _)
  have hS : 0 < S.getD (S.length - 1) 0 :=
    hpos _ (getD_mem_of_lt S _ (by omega))
  unfold condValue floatDiv
  rw [hmin, if_neg hS.ne', Option.map_some', div_self hS.ne']
  norm_num

/-- Claim C10 witness: the curve `[1, 2/3]` with `k = 5`: the value at the
last index is `0`. -/
theorem conditional_last_index_zero_witness :
    (([1, 2/3] : List ℚ) ≠ []) ∧
    (∃ l, plot_conditional_winning_rate ([1, 2/3] : List ℚ) ((5 : Nat) : Int) = some l ∧
      l.get? (([1, 2/3] : List ℚ).length - 1) = some (some 0)) :=
  ⟨by with_unfolding_all decide,
    conditional_last_index_zero [1, 2/3] 5
      (by with_unfolding_all decide) (by with_unfolding_all decide)⟩

/-- Claim C7 counterexample: the transformer performs no input validation.
With the negative look-ahead `k = -1` on the curve `[1, 1/2]` it silently
applies Python negative indexing and returns the series `[1/2, -1]` (a
result, with a value outside `[0, 1]`), and on an empty curve it returns
the empty series; neither case fails with InvalidInput. -/
theorem conditional_no_validation_counterexample :
    plot_conditional_winning_rate [1, 1/2] (-1) = some [some (1/2), some (-1)] ∧
    plot_conditional_winning_rate ([] : List ℚ) (-7) = some [] := by
  with_unfolding_all decide

/-- Claim C7 (amended): the transformer validates nothing.  For any
look-ahead `k ≥ -len` (in particular every negative `k` down to `-len`,
and every `k` on an empty curve) it returns a series of the same length as
the curve, using Python wrap-around indexing; only when `k < -len` on a
non-empty curve does it fail, with an unhandled `IndexError`, never with
a typed InvalidInput. -/
theorem conditional_no_validation (S : List ℚ) (k : Int) :
    (-(S.length : Int) ≤ k →
      ∃ l, plot_conditional_winning_rate S k = some l ∧ l.length = S.length) ∧
    ((k + S.length : Int) < 0 → S ≠ [] →
      plot_conditional_winning_rate S k = none) := by
  constructor
  · intro hk
    have hall : ∀ e ∈ (List.range S.length).map (condEntry S k), ∃ a, e = some a := by
      intro e he
      obtain ⟨i, hir, rfl⟩ := List.mem_map.mp he
      have hi : i < S.length := List.mem_range.mp hir
      have hlen1 : (0 : Int) ≤ (S.length : Int) - 1 := by
        have : 1 ≤ S.length := by omega
        omega
      unfold condEntry pyIndex
      by_cases h0 : 0 ≤ min ((i : Int) + k) ((S.length : Int) - 1)
      · rw [if_pos h0]
        have hub : min ((i : Int) + k) ((S.length : Int) - 1) ≤ (S.length : Int) - 1 :=
          min_le_right _ _
        have htn : (min ((i : Int) + k) ((S.length : Int) - 1)).toNat < S.length := by
          omega
        rw [get?_eq_some_getD S _ htn]
        exact ⟨_, rfl⟩
      · rw [if_neg h0]
        have hmin : min ((i : Int) + k) ((S.length : Int) - 1) = (i : Int) + k := by
          rcases min_choice ((i : Int) + k) ((S.length : Int) - 1) with h | h
          · exact h
          · rw [h] at h0; omega
        rw [hmin] at h0 ⊢
        have hnn : (0 : Int) ≤ (i : Int) + k + (S.length : Int) := by omega
        rw [if_pos hnn]
        have htn : ((i : Int) + k + (S.length : Int)).toNat < S.length := by omega
        rw [get?_eq_some_getD S _ htn]
        exact ⟨_, rfl⟩
    obtain ⟨l2, h2, hl⟩ := optTraverse_all_some _ hall
    exact ⟨l2, h2, by simpa using hl⟩
  · intro hk hne
    obtain ⟨m, hm⟩ := Nat.exists_eq_succ_of_ne_zero
      (fun h => hne (List.length_eq_zero.mp h))
    have hfirst : condEntry S k 0 = none := by
      have hlen1 : (0 : Int) ≤ (S.length : Int) - 1 := by omega
      have hmin : min k ((S.length : Int) - 1) = k := min_eq_left (by omega)
      unfold condEntry pyIndex
      simp only [Nat.cast_zero, zero_add]
      rw [hmin, if_neg (by omega), if_neg (by omega)]
      rfl
    unfold plot_conditional_winning_rate
    rw [hm, List.range_succ_eq_map, List.map_cons, hfirst]
    rfl

/-- Claim C7 witness: both branches of the amended statement, at the curve
`[1, 1/2]` with `k = -2` (result returned) and at `[1]` with `k = -2`
(unhandled IndexError). -/
theorem conditional_no_validation_witness :
    (∃ l, plot_conditional_winning_rate ([1, 1/2] : List ℚ) (-2) = some l ∧
      l.length = ([1, 1/2] : List ℚ).length) ∧
    plot_conditional_winning_rate ([1] : List ℚ) (-2) = none :=
  ⟨(conditional_no_validation [1, 1/2] (-2)).1 (by with_unfolding_all decide),
    (conditional_no_validation [1] (-2)).2 (by with_unfolding_all decide)
      (by with_unfolding_all decide)⟩

/-- Claim C3: for a non-empty value collection, `m > 0` and `R > 0`, the
simulator returns a Value Sample Set of exactly `R` elements, each the sum
of `m` values taken (with replacement) from the collection, and the
reported statistics (mean, 10th and 90th percentile) are computed over
that set.  The statement holds for every index stream `pick`, i.e. for
every possible behaviour of the random generator. -/
theorem simulate_futures_output (vals : List ℚ) (m R : Nat)
    (pick : Nat → Nat → Nat) (hv : vals ≠ []) (hm : 0 < m) (hR : 0 < R) :
    ∃ out, simulate_futures vals m R pick = some out ∧
      out.samples.length = R ∧
      (∀ x ∈ out.samples, ∃ draws : List ℚ, draws.length = m ∧
        (∀ v ∈ draws, v ∈ vals) ∧ x = draws.sum) ∧
      out.mean = sampleMean out.samples ∧
      out.p10 = npPercentile out.samples 10 ∧
      out.p90 = npPercentile out.samples 90 := by
  have hc : ¬(vals.isEmpty = true ∨ R = 0) := by
    simp only [List.isEmpty_iff]
    push_neg
    exact ⟨hv, by omega⟩
  unfold simulate_futures
  rw [if_neg hc]
  refine ⟨_, rfl, ?_, ?_, rfl, rfl, rfl⟩
  · simp [simSamples]
  · intro x hx
    obtain ⟨r, hr, rfl⟩ := List.mem_map.mp hx
    refine ⟨(List.range m).map (fun j => vals.getD (pick r j % vals.length) 0),
      by simp, ?_, rfl⟩
    intro v hvm
    obtain ⟨j, hj, rfl⟩ := List.mem_map.mp hvm
    have hlen : 0 < vals.length := List.length_pos.mpr hv
    exact getD_mem_of_lt vals _ (Nat.mod_lt _ hlen)

/-- Claim C3 witness: the scenario-3 collection `[10, 20, 30]` with
`m = 2`, `R = 1` and the index stream that always picks the first value;
the single simulated future sums to `20`, one of the nine possible sums. -/
theorem simulate_futures_output_witness :
    simulate_futures ([10, 20, 30] : List ℚ) 2 1 (fun _ _ => 0) =
      some ⟨[20], 20, 20, 20⟩ ∧
    (∃ out, simulate_futures ([10, 20, 30] : List ℚ) 2 1 (fun _ _ => 0) = some out ∧
      out.samples.length = 1 ∧
      (∀ x ∈ out.samples, ∃ draws : List ℚ, draws.length = 2 ∧
        (∀ v ∈ draws, v ∈ ([10, 20, 30] : List ℚ)) ∧ x = draws.sum) ∧
      out.mean = sampleMean out.samples ∧
      out.p10 = npPercentile out.samples 10 ∧
      out.p90 = npPercentile out.samples 90) :=
  ⟨by with_unfolding_all decide,
    simulate_futures_output [10, 20, 30] 2 1 (fun _ _ => 0)
      (by with_unfolding_all decide) (by decide) (by decide)⟩

/-- Claim C4 counterexample: `simulate_futures` has no seed parameter; it
draws from numpy's global generator, embedded as a stream with a moving
offset.  Under the stream `0, 1, 2, ...`, two consecutive runs with the
identical inputs (`vals = [0, 1]`, `m = 1`, `R = 1`) return the Value
Sample Sets `[0]` and `[1]`, which differ: without a seed, runs are not
reproducible. -/
theorem simulate_futures_two_runs_differ :
    (simulate_futures_run [0, 1] 1 1 (fun n => n) 0).1 = some ⟨[0], 0, 0, 0⟩ ∧
    (simulate_futures_run [0, 1] 1 1 (fun n => n)
      (simulate_futures_run [0, 1] 1 1 (fun n => n) 0).2).1 = some ⟨[1], 1, 1, 1⟩ ∧
    decide ((some (SimOutput.mk [0] 0 0 0) : Option SimOutput) =
      some (SimOutput.mk [1] 1 1 1)) = false := by
  with_unfolding_all decide

/-- Claim C4 (amended): the simulator is deterministic given the state of
the generator: two runs whose streams deliver the same draw indices
(modulo the collection size) at every consumed position produce identical
outputs for identical inputs. -/
theorem simulate_futures_deterministic (vals : List ℚ) (m R : Nat)
    (s1 s2 : Nat → Nat) (t1 t2 : Nat)
    (h : ∀ r, r < R → ∀ j, j < m →
      s1 (t1 + r * m + j) % vals.length = s2 (t2 + r * m + j) % vals.length) :
    (simulate_futures_run vals m R s1 t1).1 = (simulate_futures_run vals m R s2 t2).1 := by
  have hs : simSamples vals m R (fun r j => s1 (t1 + r * m + j)) =
      simSamples vals m R (fun r j => s2 (t2 + r * m + j)) := by
    unfold simSamples
    apply List.map_congr_left
    intro r hr
    unfold npChoiceSum
    congr 1
    apply List.map_congr_left
    intro j hj
    rw [h r (List.mem_range.mp hr) j (List.mem_range.mp hj)]
  unfold simulate_futures_run simulate_futures
  by_cases hc : vals.isEmpty = true ∨ R = 0
  · rw [if_pos hc, if_pos hc]
  · rw [if_neg hc, if_neg hc, hs]

/-- Claim C4 witness: the deterministic-given-state theorem applied to the
streams `n + 2` at offset 0 and `n` at offset 2 over `[5, 7]`, which read
the same draws. -/
theorem simulate_futures_deterministic_witness :
    (simulate_futures_run ([5, 7] : List ℚ) 1 1 (fun n => n + 2) 0).1 =
      (simulate_futures_run ([5, 7] : List ℚ) 1 1 (fun n => n) 2).1 :=
  simulate_futures_deterministic [5, 7] 1 1 (fun n => n + 2) (fun n => n) 0 2
    (by
      intro r hr j hj
      have hr0 : r = 0 := by omega
      have hj0 : j = 0 := by omega
      subst hr0; subst hj0
      decide)

/-- Claim C8 counterexample: with the sample size `m = 0` (not strictly
positive), a non-empty collection and `R = 3`, the simulator performs no
validation and returns the Value Sample Set `[0, 0, 0]` instead of
failing with InvalidInput. -/
theorem simulate_futures_no_validation :
    simulate_futures [10] 0 3 (fun _ _ => 0) = some ⟨[0, 0, 0], 0, 0, 0⟩ := by
  with_unfolding_all decide

/-- Claim C8 (amended): `simulate_futures` validates nothing itself.  It
fails exactly when the collection is empty or `R = 0`, and then with the
untyped library errors `ValueError` (from `np.random.choice` on an empty
collection) or `IndexError` (from `np.percentile` of an empty sample
list), never with a typed InvalidInput; a non-positive sample size `m = 0`
is accepted and yields a sample set of `R` zero sums. -/
theorem simulate_futures_error_characterization (vals : List ℚ) (m R : Nat)
    (pick : Nat → Nat → Nat) :
    (simulate_futures vals m R pick = none ↔ vals = [] ∨ R = 0) ∧
    (m = 0 → vals ≠ [] → 0 < R →
      ∃ out, simulate_futures vals m R pick = some out ∧
        out.samples = List.replicate R 0) := by
  constructor
  · unfold simulate_futures
    by_cases hc : vals.isEmpty = true ∨ R = 0
    · rw [if_pos hc]
      simp only [List.isEmpty_iff] at hc
      exact iff_of_true rfl hc
    · rw [if_neg hc]
      simp only [List.isEmpty_iff] at hc
      exact iff_of_false (by simp) hc
  · intro hm hv hR
    have hc : ¬(vals.isEmpty = true ∨ R = 0) := by
      simp only [List.isEmpty_iff]
      push_neg
      exact ⟨hv, by omega⟩
    unfold simulate_futures
    rw [if_neg hc]
    refine ⟨_, rfl, ?_⟩
    subst hm
    unfold simSamples npChoiceSum
    refine List.eq_replicate.mpr ⟨by simp, ?_⟩
    intro b hb
    obtain ⟨r, hr, rfl⟩ := List.mem_map.mp hb
    simp

/-- Claim C8 witness: both parts of the characterization at `vals = [3]`,
`m = 0`, `R = 2`: the run does not fail and its sample set is `[0, 0]`. -/
theorem simulate_futures_error_characterization_witness :
    (simulate_futures ([3] : List ℚ) 0 2 (fun _ _ => 1) = none ↔
      ([3] : List ℚ) = [] ∨ (2 : Nat) = 0) ∧
    (∃ out, simulate_futures ([3] : List ℚ) 0 2 (fun _ _ => 1) = some out ∧
      out.samples = List.replicate 2 0) :=
  ⟨(simulate_futures_error_characterization [3] 0 2 (fun _ _ => 1)).1,
    (simulate_futures_error_characterization [3] 0 2 (fun _ _ => 1)).2 rfl
      (by with_unfolding_all decide) (by decide)⟩

theorem eventsAt_le_atRisk (obs : List DurationRecord) (t : Nat) :
    eventsAt obs t ≤ atRisk obs t := by
  induction obs with
  | nil => simp [eventsAt, atRisk]
  | cons o rest ih =>
    unfold eventsAt atRisk at ih ⊢
    rw [List.filter_cons, List.filter_cons]
    by_cases h1 : (decide (o.1 = t) && o.2) = true
    · have h2 : decide (t ≤ o.1) = true := by
        simp only [Bool.and_eq_true, decide_eq_true_eq] at h1
        simp [h1.1]
      rw [if_pos h1, if_pos h2]
      simpa using ih
    · rw [if_neg h1]
      by_cases h2 : decide (t ≤ o.1) = true
      · rw [if_pos h2]
        exact le_trans ih (by simp)
      · rw [if_neg h2]
        exact ih

theorem kmFactor_nonneg (obs : List DurationRecord) (t : Nat) :
    0 ≤ kmFactor obs t := by
  unfold kmFactor
  have h := eventsAt_le_atRisk obs t
  rcases Nat.eq_zero_or_pos (atRisk obs t) with h0 | h0
  · have he : eventsAt obs t = 0 := by omega
    rw [he, h0]
    norm_num
  · have hpos : (0 : ℚ) < (atRisk obs t : ℚ) := by exact_mod_cast h0
    have hle : (eventsAt obs t : ℚ) / (atRisk obs t : ℚ) ≤ 1 := by
      rw [div_le_one hpos]
      exact_mod_cast h
    linarith

theorem kmFactor_le_one (obs : List DurationRecord) (t : Nat) :
    kmFactor obs t ≤ 1 := by
  unfold kmFactor
  have h : 0 ≤ (eventsAt obs t : ℚ) / (atRisk obs t : ℚ) :=
    div_nonneg (by positivity) (by positivity)
  linarith

theorem survivalAt_nonneg (obs : List DurationRecord) :
    ∀ t, 0 ≤ survivalAt obs t := by
  intro t
  induction t with
  | zero => exact kmFactor_nonneg obs 0
  | succ n ih => exact mul_nonneg ih (kmFactor_nonneg obs (n + 1))

theorem survivalAt_le_one (obs : List DurationRecord) :
    ∀ t, survivalAt obs t ≤ 1 := by
  intro t
  induction t with
  | zero => exact kmFactor_le_one obs 0
  | succ n ih =>
    exact mul_le_one ih (kmFactor_nonneg obs (n + 1)) (kmFactor_le_one obs (n + 1))

theorem survivalAt_succ_le (obs : List DurationRecord) (t : Nat) :
    survivalAt obs (t + 1) ≤ survivalAt obs t :=
  mul_le_of_le_one_right (survivalAt_nonneg obs t) (kmFactor_le_one obs (t + 1))

theorem greenwoodTerm_nonneg (obs : List DurationRecord) (t : Nat) :
    0 ≤ greenwoodTerm obs t := by
  unfold greenwoodTerm
  apply div_nonneg (by positivity)
  apply mul_nonneg (by positivity)
  have h : (eventsAt obs t : ℚ) ≤ (atRisk obs t : ℚ) := by
    exact_mod_cast eventsAt_le_atRisk obs t
  linarith

theorem greenwoodSum_nonneg (obs : List DurationRecord) :
    ∀ t, 0 ≤ greenwoodSum obs t := by
  intro t
  induction t with
  | zero => exact greenwoodTerm_nonneg obs 0
  | succ n ih => exact add_nonneg ih (greenwoodTerm_nonneg obs (n + 1))

theorem greenwoodVar_nonneg (obs : List DurationRecord) (t : Nat) :
    0 ≤ greenwoodVar obs t :=
  mul_nonneg (sq_nonneg _) (greenwoodSum_nonneg obs t)

theorem newtonIter_pos : ∀ (n : Nat) (q x : ℚ), 0 < q → 0 < x →
    0 < newtonIter n q x := by
  intro n
  induction n with
  | zero => intro q x _ hx; exact hx
  | succ m ih =>
    intro q x hq hx
    refine ih q _ hq ?_
    unfold newtonStep
    positivity

theorem ratSqrt_nonneg (q : ℚ) : 0 ≤ ratSqrt q := by
  unfold ratSqrt
  by_cases h : q ≤ 0
  · rw [if_pos h]
  · rw [if_neg h]
    have hq : 0 < q := not_le.mp h
    exact (newtonIter_pos 4 q _ hq
      (lt_of_lt_of_le one_pos (le_max_left 1 q))).le

theorem ciLow_le_estimate (obs : List DurationRecord) (t : Nat) :
    ciLow obs t ≤ survivalAt obs t := by
  unfold ciLow
  have h : 0 ≤ zCrit * ratSqrt (greenwoodVar obs t) :=
    mul_nonneg (by norm_num [zCrit]) (ratSqrt_nonneg _)
  linarith

theorem estimate_le_ciHigh (obs : List DurationRecord) (t : Nat) :
    survivalAt obs t ≤ ciHigh obs t := by
  unfold ciHigh
  have h : 0 ≤ zCrit * ratSqrt (greenwoodVar obs t) :=
    mul_nonneg (by norm_num [zCrit]) (ratSqrt_nonneg _)
  linarith

theorem curve_get?_inv (obs : List DurationRecord) (i : Nat) (p : CurvePoint)
    (hp : ((List.range (maxDuration obs + 1)).map
      (fun t => (⟨t, survivalAt obs t, ciLow obs t, ciHigh obs t⟩ : CurvePoint))).get? i =
      some p) :
    i < maxDuration obs + 1 ∧
      p = ⟨i, survivalAt obs i, ciLow obs i, ciHigh obs i⟩ := by
  have hlen : i < maxDuration obs + 1 := by
    obtain ⟨h, _⟩ := List.get?_eq_some.mp hp
    simpa using h
  rw [List.get?_map, List.get?_range hlen, Option.map_some'] at hp
  exact ⟨hlen, (Option.some.inj hp).symm⟩

/-- Claim C2: every Survival Curve returned by the (spec-modelled)
estimator has a non-increasing point-estimate sequence with every
estimate in `[0, 1]`, and at each index the record satisfies
`ci_low ≤ estimate ≤ ci_high`. -/
theorem km_curve_invariants (obs : List DurationRecord) (curve : List CurvePoint)
    (hc : survivalEstimator obs = Except.ok curve) :
    (∀ i p q, curve.get? i = some p → curve.get? (i + 1) = some q →
      q.estimate ≤ p.estimate) ∧
    (∀ i p, curve.get? i = some p →
      0 ≤ p.estimate ∧ p.estimate ≤ 1 ∧
      p.ci_low ≤ p.estimate ∧ p.estimate ≤ p.ci_high) := by
  unfold survivalEstimator at hc
  by_cases he : obs.isEmpty = true
  · rw [if_pos he] at hc
    exact absurd hc (by simp)
  · rw [if_neg he] at hc
    have hcc := Except.ok.inj hc
    subst hcc
    constructor
    · intro i p q hp hq
      obtain ⟨hi, rfl⟩ := curve_get?_inv obs i p hp
      obtain ⟨hi2, rfl⟩ := curve_get?_inv obs (i + 1) q hq
      exact survivalAt_succ_le obs i
    · intro i p hp
      obtain ⟨hi, rfl⟩ := curve_get?_inv obs i p hp
      exact ⟨survivalAt_nonneg obs i, survivalAt_le_one obs i,
        ciLow_le_estimate obs i, estimate_le_ciHigh obs i⟩

/-- Claim C2 witness: the cohort of a single observation with an event at
week 1.  Its curve is `[⟨0, 1, 1, 1⟩, ⟨1, 0, 0, 0⟩]`; the estimate drops
from 1 to 0 and each record is bracketed by its bounds. -/
theorem km_curve_invariants_witness :
    survivalEstimator [(1, true)] = Except.ok [⟨0, 1, 1, 1⟩, ⟨1, 0, 0, 0⟩] ∧
    (CurvePoint.mk 1 0 0 0).estimate ≤ (CurvePoint.mk 0 1 1 1).estimate ∧
    (0 ≤ (CurvePoint.mk 0 1 1 1).estimate ∧ (CurvePoint.mk 0 1 1 1).estimate ≤ 1 ∧
      (CurvePoint.mk 0 1 1 1).ci_low ≤ (CurvePoint.mk 0 1 1 1).estimate ∧
      (CurvePoint.mk 0 1 1 1).estimate ≤ (CurvePoint.mk 0 1 1 1).ci_high) :=
  have hc : survivalEstimator [(1, true)] =
      Except.ok [⟨0, 1, 1, 1⟩, ⟨1, 0, 0, 0⟩] := by with_unfolding_all decide
  ⟨hc,
    (km_curve_invariants [(1, true)] _ hc).1 0 (CurvePoint.mk 0 1 1 1)
      (CurvePoint.mk 1 0 0 0) (by with_unfolding_all decide)
      (by with_unfolding_all decide),
    (km_curve_invariants [(1, true)] _ hc).2 0 (CurvePoint.mk 0 1 1 1)
      (by with_unfolding_all decide)⟩

/-- Claim C9: invoked on a cohort with zero observations, the
(spec-modelled) Survival Estimator fails with `EmptyCohort`; since the
result is the `error` constructor it is not an `ok` curve, empty or
otherwise. -/
theorem km_empty_cohort_error :
    survivalEstimator [] = Except.error SpecError.EmptyCohort := by
  with_unfolding_all decide
